import Mathlib

/-!
Shallow embedding of `src/db.ts` from bun-json-db: a JSON-backed document
store with named collections, TTL expiry sweeping, pagination, sorting,
searching, aggregation, backup/restore and a snapshot-based transaction
mechanism.  Documents and the store are JS objects, modelled as ordered
association lists; JS numbers are modelled as exact rationals; the backing
file is modelled by its parsed content (JSON round-tripping is assumed
faithful for the values considered).
-/

namespace BunDb

/-- JSON-style field values stored in documents.  The properties considered
never store nested objects/arrays in a field the engine inspects, so values
are flat. -/
inductive Value where
  | num (q : ℚ)
  | str (s : String)
  | bool (b : Bool)
  | null
deriving DecidableEq, Repr

/-- A document (`DataItem` in `db.ts`): a JS object, i.e. an ordered list of
field-name/value bindings (actual JS objects have unique keys). -/
abbrev Doc := List (String × Value)

/-- JS property read `d[k]`: the first binding of `k`; `none` models
`undefined`. -/
def lookupField (d : Doc) (k : String) : Option Value :=
  (d.find? (fun p => decide (p.1 = k))).map (·.2)

/-- `item.id` as the code reads it (`undefined` when the field is absent). -/
def docId (d : Doc) : Option Value := lookupField d "id"

/-- JS truthiness of a field value, as tested by `!item.expiresAt`. -/
def truthy : Value → Bool
  | .num q => decide (q ≠ 0)
  | .str s => decide (s ≠ "")
  | .bool b => b
  | .null => false

/-- JS numeric coercion as used by `>`: numbers map to themselves, booleans
to 0/1, `null` to 0, `undefined` to NaN (`none`).  String-to-number parsing
is not modelled (no property here compares a string field numerically);
non-numeric strings coerce to NaN anyway. -/
def toNum : Option Value → Option ℚ
  | some (.num q) => some q
  | some (.bool b) => some (if b then 1 else 0)
  | some .null => some 0
  | some (.str _) => none
  | none => none

/-- JS `a > b` on field values: two strings compare lexicographically;
otherwise both sides are coerced to numbers and any NaN makes the
comparison false. -/
def jsGt (a b : Option Value) : Bool :=
  match a, b with
  | some (.str x), some (.str y) => decide (y < x)
  | a, b =>
    match toNum a, toNum b with
    | some x, some y => decide (y < x)
    | _, _ => false

/-- The sweep predicate of `cleanExpiredItems`:
`(item) => !item.expiresAt || item.expiresAt > now`. -/
def keepAt (now : ℚ) (d : Doc) : Bool :=
  match lookupField d "expiresAt" with
  | none => true
  | some v => !truthy v || jsGt (some v) (some (.num now))

/-- The root store `Record<string, DataItem[]>`: a JS object mapping
collection names to document arrays. -/
abbrev Store := List (String × List Doc)

/-- `data[c]`: `none` when the collection key is absent. -/
def getCol (s : Store) (c : String) : Option (List Doc) :=
  (s.find? (fun p => decide (p.1 = c))).map (·.2)

/-- JS assignment `data[c] = docs`: an existing key keeps its position, a
fresh key is appended at the end. -/
def setCol (s : Store) (c : String) (docs : List Doc) : Store :=
  if (s.find? (fun p => decide (p.1 = c))).isSome then
    s.map (fun p => if p.1 = c then (c, docs) else p)
  else s ++ [(c, docs)]

/-- The documents of a collection, empty when the key is absent. -/
def colOf (s : Store) (c : String) : List Doc := (getCol s c).getD []

/-- The distinct `Error`s thrown by the class. -/
inductive DbError where
  | duplicateKey | notFound | noNumericData
deriving DecidableEq, Repr

/-- A `Database` instance: the in-memory store `data`, the parsed content
of the backing file (`save()` rewrites it from `data`), and the pending
transaction snapshot `transactionBackup`. -/
structure DB where
  data : Store
  file : Store
  txBackup : Option Store
deriving DecidableEq, Repr

/-- `save()`: rewrite the backing file from the in-memory store. -/
def save (db : DB) : DB := { db with file := db.data }

/-- `ensureCollection(c)`: create the collection as `[]` when the key is
absent (an existing array is always truthy); does not persist. -/
def ensureCollection (db : DB) (c : String) : DB :=
  match getCol db.data c with
  | some _ => db
  | none => { db with data := setCol db.data c [] }

/-- `cleanExpiredItems(c)` with `Date.now() = now`: ensure the collection,
retain only unexpired items, persist, and return the pruned live array. -/
def cleanExpiredItems (db : DB) (c : String) (now : ℚ) : DB × List Doc :=
  let db1 := ensureCollection db c
  let docs := (colOf db1.data c).filter (keepAt now)
  (save { db1 with data := setCol db1.data c docs }, docs)

/-- `insert(c, item)`: duplicate-id check against the raw (unswept)
collection, then append and persist. -/
def insert (db : DB) (c : String) (item : Doc) : DB × Except DbError Unit :=
  let db1 := ensureCollection db c
  let docs := colOf db1.data c
  if docs.any (fun ex => decide (docId ex = docId item)) then
    (db1, .error .duplicateKey)
  else
    (save { db1 with data := setCol db1.data c (docs ++ [item]) }, .ok ())

/-- `getAll(c)`: the swept collection. -/
def getAll (db : DB) (c : String) (now : ℚ) : DB × List Doc :=
  cleanExpiredItems db c now

/-- `getById(c, id)`: sweep, then the first document whose `id` field
strict-equals `id`. -/
def getById (db : DB) (c : String) (id : ℚ) (now : ℚ) : DB × Option Doc :=
  let db1 := (cleanExpiredItems db c now).1
  (db1, (colOf db1.data c).find? (fun d => decide (docId d = some (.num id))))

/-- The JS spread merge `{ ...old, ...patch }`: fields of `old` keep their
position, patched values overwrite in place, fresh patch fields are
appended in order. -/
def mergeDoc (old patch : Doc) : Doc :=
  (old.map fun p =>
    match lookupField patch p.1 with
    | some v => (p.1, v)
    | none => p)
  ++ patch.filter (fun p => (lookupField old p.1).isNone)

/-- `update(c, id, patch)`: replace the first id-match by the shallow merge
and persist; throws `NotFound` when there is no match. -/
def update (db : DB) (c : String) (id : ℚ) (patch : Doc) :
    DB × Except DbError Unit :=
  let db1 := ensureCollection db c
  let docs := colOf db1.data c
  match docs.findIdx? (fun d => decide (docId d = some (.num id))) with
  | some i =>
    (save { db1 with
        data := setCol db1.data c (docs.set i (mergeDoc (docs.getD i []) patch)) },
     .ok ())
  | none => (db1, .error .notFound)

/-- `delete(c, id)`: drop every id-match and persist (no error when there
is none). -/
def delete (db : DB) (c : String) (id : ℚ) : DB :=
  let db1 := ensureCollection db c
  save { db1 with
    data := setCol db1.data c
      ((colOf db1.data c).filter (fun d => !decide (docId d = some (.num id)))) }

/-- `clearCollection(c)`: replace the collection by `[]` and persist. -/
def clearCollection (db : DB) (c : String) : DB :=
  let db1 := ensureCollection db c
  save { db1 with data := setCol db1.data c [] }

/-- `getCount(c)`: ensure the collection (no sweep, no persist) and return
the length of the raw array. -/
def getCount (db : DB) (c : String) : DB × Nat :=
  let db1 := ensureCollection db c
  (db1, (colOf db1.data c).length)

/-- `filter(c, p)`: ensure the collection (no sweep) and filter the raw
array with the caller's predicate. -/
def filterOp (db : DB) (c : String) (p : Doc → Bool) : DB × List Doc :=
  let db1 := ensureCollection db c
  (db1, (colOf db1.data c).filter p)

/-- `exists(c, id)` (`exists` is a Lean keyword): ensure the collection (no
sweep) and scan the raw array for the id. -/
def existsOp (db : DB) (c : String) (id : ℚ) : DB × Bool :=
  let db1 := ensureCollection db c
  (db1, (colOf db1.data c).any (fun d => decide (docId d = some (.num id))))

/-- `Array.prototype.slice(s, e)`: negative indices count from the end of
the array, then both are clamped to `[0, len]`. -/
def jsSlice (l : List Doc) (s e : Int) : List Doc :=
  let len : Int := l.length
  let s1 : Int := if s < 0 then max (len + s) 0 else min s len
  let e1 : Int := if e < 0 then max (len + e) 0 else min e len
  (l.drop s1.toNat).take (e1 - s1).toNat

/-- `paginate(c, page, limit)`: sweep, then
`slice((page-1)*limit, (page-1)*limit + limit)`. -/
def paginate (db : DB) (c : String) (page limit : Int) (now : ℚ) :
    DB × List Doc :=
  let start := (page - 1) * limit
  let r := cleanExpiredItems db c now
  (r.1, jsSlice r.2 start (start + limit))

inductive SortOrder where
  | asc | desc
deriving DecidableEq, Repr

/-- The comparator
`(a, b) => (a[key] > b[key] ? 1 : -1) * (order === "asc" ? 1 : -1)`
rendered as the Bool `cmp a b ≤ 0` ("a sorts no later than b"); the
comparator never returns 0. -/
def sortLe (key : String) (ord : SortOrder) (a b : Doc) : Bool :=
  match ord with
  | .asc => !jsGt (lookupField a key) (lookupField b key)
  | .desc => jsGt (lookupField a key) (lookupField b key)

/-- Insertion of `x` into `l` keeping `x` before the first `y` with
`le x y`.  A concrete deterministic model of the engine's comparison sort:
the comparator never returns 0, so every comparison sort agrees whenever
the compared key values are distinct (ties are implementation-defined in
JS, since the comparator is then inconsistent). -/
def insertSorted (le : Doc → Doc → Bool) (x : Doc) : List Doc → List Doc
  | [] => [x]
  | y :: ys => if le x y then x :: y :: ys else y :: insertSorted le x ys

def sortList (le : Doc → Doc → Bool) : List Doc → List Doc
  | [] => []
  | x :: xs => insertSorted le x (sortList le xs)

/-- `sort(c, key, order)`: sweep, then `Array.prototype.sort`, which sorts
the live collection array *in place* and returns it; no further persist
(the sweep already saved the pre-sort order). -/
def sortOp (db : DB) (c key : String) (ord : SortOrder) (now : ℚ) :
    DB × List Doc :=
  let r := cleanExpiredItems db c now
  let sorted := sortList (sortLe key ord) r.2
  ({ r.1 with data := setCol r.1.data c sorted }, sorted)

/-- `search(c, key, value)`: sweep, then strict-equality filter on the
key. -/
def search (db : DB) (c key : String) (value : Value) (now : ℚ) :
    DB × List Doc :=
  let r := cleanExpiredItems db c now
  (r.1, r.2.filter (fun d => decide (lookupField d key = some value)))

inductive AggOp where
  | sum | avg | min | max
deriving DecidableEq, Repr

/-- The values collected by `aggregate`: `item[key]` across the swept
collection, kept only when `typeof v === "number"`. -/
def numericValues (docs : List Doc) (key : String) : List ℚ :=
  docs.filterMap (fun d =>
    match lookupField d key with
    | some (.num q) => some q
    | _ => none)

/-- `aggregate(c, key, op)`: sweep, collect numeric values, throw
`NoNumericData` when there are none, else reduce. -/
def aggregate (db : DB) (c key : String) (op : AggOp) (now : ℚ) :
    DB × Except DbError ℚ :=
  let r := cleanExpiredItems db c now
  (r.1, match numericValues r.2 key with
    | [] => .error .noNumericData
    | v :: vs =>
      .ok (match op with
        | .sum => (v :: vs).foldl (· + ·) 0
        | .avg => (v :: vs).foldl (· + ·) 0 / ((v :: vs).length : ℚ)
        | .min => vs.foldl min v
        | .max => vs.foldl max v))

/-- `backup(path)`: copy the backing file byte-for-byte; the model returns
the copied content. -/
def backup (db : DB) : Store := db.file

/-- `restore(path)`: `none` models a missing backup file (`NotFound`);
otherwise the parsed backup content replaces the in-memory store and is
persisted. -/
def restore (db : DB) (content : Option Store) : DB × Except DbError Unit :=
  match content with
  | some s => (save { db with data := s }, .ok ())
  | none => (db, .error .notFound)

/-- `startTransaction()`: snapshot a deep copy of the store (deep copies
are value copies in the model); no persist. -/
def startTransaction (db : DB) : DB := { db with txBackup := some db.data }

/-- `commitTransaction()`: unconditionally drop the snapshot and persist
the live store. -/
def commitTransaction (db : DB) : DB := save { db with txBackup := none }

/-- `rollbackTransaction()`: when a snapshot is pending, reinstate a deep
copy of it, clear it, and persist; otherwise a no-op. -/
def rollbackTransaction (db : DB) : DB :=
  match db.txBackup with
  | some s => save { db with data := s, txBackup := none }
  | none => db

/-- The mutating operations of the API, for transaction statements.  Each
constructor applies the operation and keeps the resulting state — including
the state left behind by a thrown `DuplicateKey`/`NotFound` — and drops the
returned value. -/
inductive MutOp where
  | insert (c : String) (item : Doc)
  | update (c : String) (id : ℚ) (patch : Doc)
  | delete (c : String) (id : ℚ)
  | clearCollection (c : String)

def applyMut (db : DB) : MutOp → DB
  | .insert c item => (insert db c item).1
  | .update c id patch => (update db c id patch).1
  | .delete c id => delete db c id
  | .clearCollection c => clearCollection db c

def applyMuts (db : DB) (ops : List MutOp) : DB := ops.foldl applyMut db

/-- The two demo documents of the repository's test harness. -/
def alice : Doc := [("id", .num 1), ("name", .str "Alice"), ("age", .num 25)]

def bob : Doc := [("id", .num 2), ("name", .str "Bob"), ("age", .num 30)]

/-- A store holding `users = [alice, bob]`, consistent with its file. -/
def dbUsers : DB :=
  ⟨[("users", [alice, bob])], [("users", [alice, bob])], none⟩

/-- A document that is logically expired at any time ≥ 5. -/
def expiredDoc : Doc := [("id", .num 1), ("expiresAt", .num 5)]

/-- A store holding a single expired document, consistent with its file. -/
def dbExpired : DB :=
  ⟨[("users", [expiredDoc])], [("users", [expiredDoc])], none⟩

/-! ## Basic store lemmas -/

theorem getCol_setCol_self (c : String) (docs : List Doc) :
    ∀ s : Store, getCol (setCol s c docs) c = some docs := by
  intro s
  induction s with
  | nil => simp [setCol, getCol]
  | cons p t ih =>
    by_cases hp : p.1 = c
    · simp [setCol, getCol, List.find?_cons, hp]
    · by_cases ht : ((t.find? (fun q => decide (q.1 = c))).isSome)
      · have ih' : getCol (t.map (fun p => if p.1 = c then (c, docs) else p)) c
            = some docs := by simpa [setCol, ht] using ih
        simpa [setCol, getCol, List.find?_cons, hp, ht] using ih'
      · have ih' : getCol (t ++ [(c, docs)]) c = some docs := by
          simpa [setCol, ht] using ih
        simpa [setCol, getCol, List.find?_cons, hp, ht] using ih'

theorem getCol_ensure (db : DB) (c : String) :
    getCol (ensureCollection db c).data c = some (colOf db.data c) := by
  unfold ensureCollection colOf
  cases h : getCol db.data c with
  | some l => simp [h]
  | none => simp [h, getCol_setCol_self]

theorem colOf_ensure (db : DB) (c : String) :
    colOf (ensureCollection db c).data c = colOf db.data c := by
  rw [colOf, getCol_ensure]; rfl

theorem ensure_txBackup (db : DB) (c : String) :
    (ensureCollection db c).txBackup = db.txBackup := by
  unfold ensureCollection
  cases getCol db.data c <;> rfl

theorem ensure_file (db : DB) (c : String) :
    (ensureCollection db c).file = db.file := by
  unfold ensureCollection
  cases getCol db.data c <;> rfl

theorem clean_fst_data (db : DB) (c : String) (now : ℚ) :
    colOf (cleanExpiredItems db c now).1.data c
      = (colOf db.data c).filter (keepAt now) := by
  unfold cleanExpiredItems
  simp [save, getCol_setCol_self, getCol_ensure, colOf]

theorem clean_snd (db : DB) (c : String) (now : ℚ) :
    (cleanExpiredItems db c now).2 = (colOf db.data c).filter (keepAt now) := by
  unfold cleanExpiredItems
  simp [getCol_ensure, colOf]

theorem clean_txBackup (db : DB) (c : String) (now : ℚ) :
    (cleanExpiredItems db c now).1.txBackup = db.txBackup := by
  unfold cleanExpiredItems
  simp [save, ensure_txBackup]

/-! ## Transaction lemmas: no mutating operation touches the snapshot -/

theorem insert_txBackup (db : DB) (c : String) (item : Doc) :
    (insert db c item).1.txBackup = db.txBackup := by
  simp only [insert]
  split <;> simp [save, ensure_txBackup]

theorem update_txBackup (db : DB) (c : String) (id : ℚ) (patch : Doc) :
    (update db c id patch).1.txBackup = db.txBackup := by
  simp only [update]
  split <;> simp [save, ensure_txBackup]

theorem delete_txBackup (db : DB) (c : String) (id : ℚ) :
    (delete db c id).txBackup = db.txBackup := by
  simp [delete, save, ensure_txBackup]

theorem clearCollection_txBackup (db : DB) (c : String) :
    (clearCollection db c).txBackup = db.txBackup := by
  simp [clearCollection, save, ensure_txBackup]

theorem applyMut_txBackup (db : DB) (m : MutOp) :
    (applyMut db m).txBackup = db.txBackup := by
  cases m <;>
    simp [applyMut, insert_txBackup, update_txBackup, delete_txBackup,
      clearCollection_txBackup]

theorem applyMuts_txBackup (ops : List MutOp) :
    ∀ db : DB, (applyMuts db ops).txBackup = db.txBackup := by
  induction ops with
  | nil => intro db; rfl
  | cons m t ih =>
    intro db
    show (applyMuts (applyMut db m) t).txBackup = db.txBackup
    rw [ih (applyMut db m), applyMut_txBackup]

/-- C3: `startTransaction(); mutate…; rollbackTransaction()` leaves the
in-memory store equal to its state immediately before `startTransaction`,
for every store state and every sequence of mutating operations (insert,
update, delete, clearCollection — successful or throwing). -/
theorem transaction_rollback_atomic (db : DB) (ops : List MutOp) :
    (rollbackTransaction (applyMuts (startTransaction db) ops)).data = db.data := by
  have h : (applyMuts (startTransaction db) ops).txBackup = some db.data := by
    rw [applyMuts_txBackup]; rfl
  unfold rollbackTransaction
  rw [h]
  rfl

/-- C10: `commitTransaction` called while no transaction is pending does
not fail: it leaves the in-memory store unchanged, leaves the snapshot
absent, and persists the current store to the backing file. -/
theorem commit_idle (db : DB) (_h : db.txBackup = none) :
    (commitTransaction db).data = db.data ∧
    (commitTransaction db).txBackup = none ∧
    (commitTransaction db).file = db.data :=
  ⟨rfl, rfl, rfl⟩

/-- Witness for `commit_idle` at a concrete Idle state. -/
theorem commit_idle_witness :
    (commitTransaction dbUsers).data = dbUsers.data ∧
    (commitTransaction dbUsers).txBackup = none ∧
    (commitTransaction dbUsers).file = dbUsers.data :=
  commit_idle dbUsers rfl

/-! ## Permutation lemmas for the sort model -/

theorem insertSorted_perm (le : Doc → Doc → Bool) (x : Doc) :
    ∀ l : List Doc, (insertSorted le x l).Perm (x :: l) := by
  intro l
  induction l with
  | nil => exact List.Perm.refl _
  | cons y ys ih =>
    unfold insertSorted
    split
    · exact List.Perm.refl _
    · exact (ih.cons y).trans (List.Perm.swap x y ys)

theorem sortList_perm (le : Doc → Doc → Bool) :
    ∀ l : List Doc, (sortList le l).Perm l := by
  intro l
  induction l with
  | nil => exact List.Perm.refl _
  | cons x xs ih =>
    exact (insertSorted_perm le x (sortList le xs)).trans (ih.cons x)

/-! ## C1: which reads sweep -/

/-- C1 (amended): the six genuinely sweeping reads (getAll, getById,
paginate, sort, search, aggregate) leave no document in the stored
collection that the sweep predicate rejects (`expiresAt` present, truthy
and not greater than the current time), and return no such document.
`getCount` and `exists`, however, do not sweep: they only ensure the
collection and read the raw array, so expired documents are still stored
afterwards, counted by `getCount`, and reported by `exists`. -/
theorem reads_sweep_spec (db : DB) (c key : String) (now id : ℚ)
    (value : Value) (page limit : Int) (ord : SortOrder) (op : AggOp) :
    (∀ d ∈ colOf (getAll db c now).1.data c, keepAt now d = true) ∧
    (∀ d ∈ (getAll db c now).2, keepAt now d = true) ∧
    (∀ d ∈ colOf (getById db c id now).1.data c, keepAt now d = true) ∧
    (∀ d, (getById db c id now).2 = some d → keepAt now d = true) ∧
    (∀ d ∈ colOf (paginate db c page limit now).1.data c, keepAt now d = true) ∧
    (∀ d ∈ (paginate db c page limit now).2, keepAt now d = true) ∧
    (∀ d ∈ colOf (sortOp db c key ord now).1.data c, keepAt now d = true) ∧
    (∀ d ∈ (sortOp db c key ord now).2, keepAt now d = true) ∧
    (∀ d ∈ colOf (search db c key value now).1.data c, keepAt now d = true) ∧
    (∀ d ∈ (search db c key value now).2, keepAt now d = true) ∧
    (∀ d ∈ colOf (aggregate db c key op now).1.data c, keepAt now d = true) ∧
    (getCount db c).1 = ensureCollection db c ∧
    (getCount db c).2 = (colOf db.data c).length ∧
    (existsOp db c id).1 = ensureCollection db c ∧
    ((existsOp db c id).2 = true ↔
      ∃ d ∈ colOf db.data c, docId d = some (.num id)) := by
  have hfst := clean_fst_data db c now
  have hsnd := clean_snd db c now
  refine ⟨?_, ?_, ?_, ?_, ?_, ?_, ?_, ?_, ?_, ?_, ?_, rfl, ?_, rfl, ?_⟩
  · intro d hd
    simp only [getAll] at hd
    rw [hfst] at hd
    exact List.of_mem_filter hd
  · intro d hd
    simp only [getAll] at hd
    rw [hsnd] at hd
    exact List.of_mem_filter hd
  · intro d hd
    simp only [getById] at hd
    rw [hfst] at hd
    exact List.of_mem_filter hd
  · intro d hd
    simp only [getById] at hd
    have hm := List.mem_of_find?_eq_some hd
    rw [hfst] at hm
    exact List.of_mem_filter hm
  · intro d hd
    simp only [paginate] at hd
    rw [hfst] at hd
    exact List.of_mem_filter hd
  · intro d hd
    simp only [paginate, jsSlice] at hd
    have hm := List.mem_of_mem_drop (List.mem_of_mem_take hd)
    rw [hsnd] at hm
    exact List.of_mem_filter hm
  · intro d hd
    simp only [sortOp, colOf, getCol_setCol_self, Option.getD_some] at hd
    have hm := ((sortList_perm _ _).mem_iff).mp hd
    rw [hsnd] at hm
    exact List.of_mem_filter hm
  · intro d hd
    simp only [sortOp] at hd
    have hm := ((sortList_perm _ _).mem_iff).mp hd
    rw [hsnd] at hm
    exact List.of_mem_filter hm
  · intro d hd
    simp only [search] at hd
    rw [hfst] at hd
    exact List.of_mem_filter hd
  · intro d hd
    simp only [search] at hd
    have hm := (List.mem_filter.mp hd).1
    rw [hsnd] at hm
    exact List.of_mem_filter hm
  · intro d hd
    simp only [aggregate] at hd
    rw [hfst] at hd
    exact List.of_mem_filter hd
  · simp [getCount, colOf_ensure]
  · simp [existsOp, List.any_eq_true, colOf_ensure]

/-- Witness for `reads_sweep_spec`: `getById(users, 1)` at time 100 returns
Alice, and Alice indeed survives the sweep predicate. -/
theorem reads_sweep_spec_witness : keepAt 100 alice = true :=
  (reads_sweep_spec dbUsers "users" "age" 100 1 (Value.num 1) 1 1
    SortOrder.asc AggOp.sum).2.2.2.1 alice (by decide)

/-- C1 counterexample: at time 10 the document with `expiresAt = 5` is
expired, yet `getCount` neither sweeps it from the stored collection nor
excludes it from the count, and `exists` reports it as present. -/
theorem getCount_expired_counterexample :
    lookupField expiredDoc "expiresAt" = some (Value.num 5) ∧
    ((5 : ℚ) ≤ 10) ∧
    (getCount dbExpired "users").2 = 1 ∧
    expiredDoc ∈ colOf (getCount dbExpired "users").1.data "users" ∧
    (existsOp dbExpired "users" 1).2 = true := by decide

/-! ## C2: duplicate-id check runs against unswept data -/

/-- C2 (amended): insert fails with DuplicateKey exactly when some stored
document of the raw, unswept collection — expired or not — has the same id
value; otherwise it appends the document at the end and persists. -/
theorem insert_spec (db : DB) (c : String) (item : Doc) :
    (((insert db c item).2 = Except.error DbError.duplicateKey) ↔
      ∃ d ∈ colOf db.data c, docId d = docId item) ∧
    ((∀ d ∈ colOf db.data c, docId d ≠ docId item) →
      colOf (insert db c item).1.data c = colOf db.data c ++ [item] ∧
      (insert db c item).1.file = (insert db c item).1.data) := by
  have hcol := colOf_ensure db c
  have hiff : (((colOf (ensureCollection db c).data c).any
      (fun ex => decide (docId ex = docId item))) = true) ↔
      ∃ d ∈ colOf db.data c, docId d = docId item := by
    rw [hcol]
    simp [List.any_eq_true]
  constructor
  · simp only [insert]
    split
    · rename_i hcond
      exact iff_of_true rfl (hiff.mp hcond)
    · rename_i hcond
      refine iff_of_false (by simp) ?_
      rw [← hiff]
      simpa using hcond
  · intro hno
    have hfalse : ¬ (((colOf (ensureCollection db c).data c).any
        (fun ex => decide (docId ex = docId item))) = true) := by
      rw [hiff]
      rintro ⟨d, hd, he⟩
      exact hno d hd he
    constructor
    · simp only [insert]
      rw [if_neg hfalse]
      simp [save, colOf, getCol_setCol_self, getCol_ensure]
    · simp only [insert]
      rw [if_neg hfalse]
      rfl

/-- Witness for `insert_spec`: inserting a fresh id appends and persists. -/
theorem insert_spec_witness :
    colOf (insert dbUsers "users"
        [("id", Value.num 3), ("name", Value.str "Charlie")]).1.data "users"
      = colOf dbUsers.data "users"
        ++ [[("id", Value.num 3), ("name", Value.str "Charlie")]] ∧
    (insert dbUsers "users"
        [("id", Value.num 3), ("name", Value.str "Charlie")]).1.file
      = (insert dbUsers "users"
        [("id", Value.num 3), ("name", Value.str "Charlie")]).1.data :=
  (insert_spec dbUsers "users"
    [("id", Value.num 3), ("name", Value.str "Charlie")]).2 (by decide)

/-- C2 counterexample: the collection holds only an expired, not-yet-swept
document with id 1 (expired at any time ≥ 5); the claim says insert of a
fresh document with id 1 appends, but the code throws DuplicateKey and
appends nothing. -/
theorem insert_expired_counterexample :
    lookupField expiredDoc "expiresAt" = some (Value.num 5) ∧
    (insert dbExpired "users" [("id", Value.num 1), ("name", Value.str "Zoe")]).2
      = Except.error DbError.duplicateKey ∧
    colOf (insert dbExpired "users"
        [("id", Value.num 1), ("name", Value.str "Zoe")]).1.data "users"
      = [expiredDoc] :=
  ⟨by decide, rfl, by decide⟩

/-! ## C9: update does not re-check id uniqueness -/

/-- C9: update performs no uniqueness check on the merged result: in a
collection with two documents of distinct ids 1 and 2, updating document 1
with `{id: 2}` succeeds and leaves two documents with id 2. -/
theorem update_breaks_uniqueness :
    docId alice = some (Value.num 1) ∧
    docId bob = some (Value.num 2) ∧
    (update dbUsers "users" 1 [("id", Value.num 2)]).2 = Except.ok () ∧
    ((colOf (update dbUsers "users" 1 [("id", Value.num 2)]).1.data
        "users").countP
      (fun d => decide (docId d = some (Value.num 2)))) = 2 :=
  ⟨by decide, by decide, rfl, by decide⟩

/-! ## C5: update = find by id, shallow merge, persist -/

theorem findIdx?_some_pred {p : Doc → Bool} :
    ∀ (l : List Doc) (i j : ℕ), List.findIdx? p l i = some j →
      i ≤ j ∧ j - i < l.length ∧ p (l.getD (j - i) []) = true := by
  intro l
  induction l with
  | nil => intro i j h; rw [List.findIdx?_nil] at h; cases h
  | cons x xs ih =>
    intro i j h
    rw [List.findIdx?_cons] at h
    by_cases hp : p x = true
    · rw [if_pos hp] at h
      cases h
      refine ⟨le_refl i, by simp, ?_⟩
      simpa [Nat.sub_self] using hp
    · rw [if_neg hp] at h
      obtain ⟨hij, hlen, hpred⟩ := ih (i + 1) j h
      have hj : j - i = (j - (i + 1)) + 1 := by omega
      refine ⟨le_trans (Nat.le_succ i) hij, by simp; omega, ?_⟩
      rw [hj, List.getD_cons_succ]
      exact hpred

theorem lookupField_append (A B : Doc) (k : String) :
    lookupField (A ++ B) k = (lookupField A k).or (lookupField B k) := by
  unfold lookupField
  rw [List.find?_append]
  cases A.find? fun p => decide (p.1 = k) <;> simp [Option.or]

theorem lookupField_filter (patch : Doc) (g : String × Value → Bool)
    (k : String) (hg : ∀ v, g (k, v) = true) :
    lookupField (patch.filter g) k = lookupField patch k := by
  induction patch with
  | nil => rfl
  | cons q t ih =>
    by_cases hq : q.1 = k
    · have hgq : g q = true := by
        have : q = (k, q.2) := by rw [← hq]
        rw [this]
        exact hg q.2
      simp [lookupField, List.filter_cons, hgq, List.find?_cons, hq] at ih ⊢
    · by_cases hgq : g q = true
      · simpa [lookupField, List.filter_cons, hgq, List.find?_cons, hq] using ih
      · simpa [lookupField, List.filter_cons, hgq, List.find?_cons, hq] using ih

theorem lookupField_cons (q : String × Value) (t : Doc) (k : String) :
    lookupField (q :: t) k = if q.1 = k then some q.2 else lookupField t k := by
  by_cases h : q.1 = k <;> simp [lookupField, List.find?_cons, h]

theorem lookupField_mapMerge (patch : Doc) (k : String) :
    ∀ old : Doc,
      lookupField (old.map fun p =>
          match lookupField patch p.1 with
          | some v => (p.1, v)
          | none => p) k
        = (lookupField old k).map (fun v => (lookupField patch k).getD v) := by
  intro old
  induction old with
  | nil => rfl
  | cons p t ih =>
    have hkey : (match lookupField patch p.1 with
        | some v => (p.1, v)
        | none => p).1 = p.1 := by
      cases lookupField patch p.1 <;> rfl
    have hval : (match lookupField patch p.1 with
        | some v => (p.1, v)
        | none => p).2 = (lookupField patch p.1).getD p.2 := by
      cases lookupField patch p.1 <;> rfl
    simp only [List.map_cons, lookupField_cons, hkey, hval, ih]
    by_cases hp : p.1 = k
    · simp [hp]
    · simp [hp]

/-- The shallow-merge law of `{ ...old, ...patch }`: a field named in the
patch takes its patched value, every other field keeps its value from
`old`. -/
theorem lookupField_mergeDoc (old patch : Doc) (k : String) :
    lookupField (mergeDoc old patch) k
      = (lookupField patch k).or (lookupField old k) := by
  unfold mergeDoc
  rw [lookupField_append, lookupField_mapMerge]
  cases ho : lookupField old k with
  | none =>
    rw [lookupField_filter patch _ k (fun v => by simp [ho])]
    cases lookupField patch k <;> simp [Option.or]
  | some w =>
    cases hp : lookupField patch k <;> simp [Option.or, hp]

/-- C5: update fails with NotFound exactly when no stored document of the
collection has the given id; otherwise it replaces the first id-match by
the shallow merge of the old document with the patch (patched fields take
the new value, all other fields keep their previous value) and persists. -/
theorem update_spec (db : DB) (c : String) (id : ℚ) (patch : Doc) :
    (((update db c id patch).2 = Except.error DbError.notFound) ↔
      ∀ d ∈ colOf db.data c, docId d ≠ some (.num id)) ∧
    (∀ i, ((colOf db.data c).findIdx?
        (fun d => decide (docId d = some (.num id)))) = some i →
      docId ((colOf db.data c).getD i []) = some (.num id) ∧
      colOf (update db c id patch).1.data c
        = (colOf db.data c).set i
            (mergeDoc ((colOf db.data c).getD i []) patch) ∧
      (update db c id patch).1.file = (update db c id patch).1.data) ∧
    (∀ old k, lookupField (mergeDoc old patch) k
        = (lookupField patch k).or (lookupField old k)) := by
  have hcol := colOf_ensure db c
  refine ⟨?_, ?_, fun old k => lookupField_mergeDoc old patch k⟩
  · simp only [update, hcol]
    cases hidx : (colOf db.data c).findIdx?
        (fun d => decide (docId d = some (.num id))) with
    | some i =>
      refine iff_of_false (by simp) ?_
      obtain ⟨-, hlen, hpred⟩ := findIdx?_some_pred (colOf db.data c) 0 i hidx
      rw [decide_eq_true_eq] at hpred
      intro hall
      exact hall _ (List.getD_eq_getElem (colOf db.data c) [] (by simpa using hlen)
        ▸ List.getElem_mem _) (by simpa using hpred)
    | none =>
      refine iff_of_true rfl ?_
      intro d hd
      have := (List.findIdx?_eq_none_iff.mp hidx) d hd
      simpa [decide_eq_false_iff_not] using this
  · intro i hi
    obtain ⟨-, hlen, hpred⟩ := findIdx?_some_pred (colOf db.data c) 0 i hi
    rw [decide_eq_true_eq] at hpred
    simp only [Nat.sub_zero] at hlen hpred
    refine ⟨hpred, ?_, ?_⟩
    · simp only [update, hcol, hi]
      simp [save, colOf, getCol_setCol_self, getCol_ensure]
    · simp only [update, hcol, hi]
      rfl

/-- Witness for `update_spec`: the repository scenario
`update(users, 1, {age: 26})` merges into Alice in place and persists. -/
theorem update_spec_witness :
    docId ((colOf dbUsers.data "users").getD 0 []) = some (Value.num 1) ∧
    colOf (update dbUsers "users" 1 [("age", Value.num 26)]).1.data "users"
      = (colOf dbUsers.data "users").set 0
          (mergeDoc ((colOf dbUsers.data "users").getD 0 [])
            [("age", Value.num 26)]) ∧
    (update dbUsers "users" 1 [("age", Value.num 26)]).1.file
      = (update dbUsers "users" 1 [("age", Value.num 26)]).1.data :=
  (update_spec dbUsers "users" 1 [("age", Value.num 26)]).2.1 0 (by decide)

/-! ## C6: aggregate -/

theorem foldl_add_eq_sum : ∀ (vs : List ℚ) (a : ℚ), vs.foldl (· + ·) a = a + vs.sum := by
  intro vs
  induction vs with
  | nil => intro a; simp
  | cons v t ih => intro a; simp [List.foldl_cons, ih, add_assoc]

theorem foldl_min_mem : ∀ (vs : List ℚ) (v : ℚ), vs.foldl min v ∈ v :: vs := by
  intro vs
  induction vs with
  | nil => intro v; simp
  | cons x t ih =>
    intro v
    rw [List.foldl_cons]
    have h := ih (min v x)
    simp only [List.mem_cons] at h ⊢
    rcases h with h1 | h1
    · rcases le_total v x with hle | hle
      · exact Or.inl (h1.trans (min_eq_left hle))
      · exact Or.inr (Or.inl (h1.trans (min_eq_right hle)))
    · exact Or.inr (Or.inr h1)

theorem foldl_min_le : ∀ (vs : List ℚ) (v x : ℚ), x ∈ v :: vs → vs.foldl min v ≤ x := by
  intro vs
  induction vs with
  | nil =>
    intro v x hx
    rw [List.mem_singleton] at hx
    simp [hx]
  | cons y t ih =>
    intro v x hx
    rw [List.foldl_cons]
    simp only [List.mem_cons] at hx
    rcases hx with h | h | h
    · rw [h]
      exact le_trans (ih (min v y) (min v y) (List.mem_cons_self _ _))
        (min_le_left v y)
    · rw [h]
      exact le_trans (ih (min v y) (min v y) (List.mem_cons_self _ _))
        (min_le_right v y)
    · exact ih (min v y) x (List.mem_cons_of_mem _ h)

theorem le_foldl_max : ∀ (vs : List ℚ) (v x : ℚ), x ∈ v :: vs → x ≤ vs.foldl max v := by
  intro vs
  induction vs with
  | nil =>
    intro v x hx
    rw [List.mem_singleton] at hx
    simp [hx]
  | cons y t ih =>
    intro v x hx
    rw [List.foldl_cons]
    simp only [List.mem_cons] at hx
    rcases hx with h | h | h
    · rw [h]
      exact le_trans (le_max_left v y)
        (ih (max v y) (max v y) (List.mem_cons_self _ _))
    · rw [h]
      exact le_trans (le_max_right v y)
        (ih (max v y) (max v y) (List.mem_cons_self _ _))
    · exact ih (max v y) x (List.mem_cons_of_mem _ h)

theorem foldl_max_mem : ∀ (vs : List ℚ) (v : ℚ), vs.foldl max v ∈ v :: vs := by
  intro vs
  induction vs with
  | nil => intro v; simp
  | cons x t ih =>
    intro v
    rw [List.foldl_cons]
    have h := ih (max v x)
    simp only [List.mem_cons] at h ⊢
    rcases h with h1 | h1
    · rcases le_total v x with hle | hle
      · exact Or.inr (Or.inl (h1.trans (max_eq_right hle)))
      · exact Or.inl (h1.trans (max_eq_left hle))
    · exact Or.inr (Or.inr h1)

/-- C6: aggregate fails with NoNumericData exactly when the list of
numeric values of the key over the swept collection (non-numeric values
ignored) is empty; otherwise it returns the sum, the average, the minimum
or the maximum of those values. -/
theorem aggregate_spec (db : DB) (c key : String) (op : AggOp) (now : ℚ) :
    (((aggregate db c key op now).2 = Except.error DbError.noNumericData) ↔
      numericValues (cleanExpiredItems db c now).2 key = []) ∧
    (numericValues (cleanExpiredItems db c now).2 key ≠ [] →
      ∃ r, (aggregate db c key op now).2 = Except.ok r ∧
        (op = AggOp.sum →
          r = (numericValues (cleanExpiredItems db c now).2 key).sum) ∧
        (op = AggOp.avg →
          r = (numericValues (cleanExpiredItems db c now).2 key).sum
            / ((numericValues (cleanExpiredItems db c now).2 key).length : ℚ)) ∧
        (op = AggOp.min →
          r ∈ numericValues (cleanExpiredItems db c now).2 key ∧
          ∀ x ∈ numericValues (cleanExpiredItems db c now).2 key, r ≤ x) ∧
        (op = AggOp.max →
          r ∈ numericValues (cleanExpiredItems db c now).2 key ∧
          ∀ x ∈ numericValues (cleanExpiredItems db c now).2 key, x ≤ r)) := by
  cases hv : numericValues (cleanExpiredItems db c now).2 key with
  | nil =>
    exact ⟨by simp [aggregate, hv], fun h => absurd rfl h⟩
  | cons v vs =>
    refine ⟨by simp [aggregate, hv], fun _ => ?_⟩
    cases op with
    | sum =>
      refine ⟨(v :: vs).foldl (· + ·) 0, by simp [aggregate, hv], fun _ => ?_,
        ?_, ?_, ?_⟩
      · rw [foldl_add_eq_sum, zero_add]
      · intro h; cases h
      · intro h; cases h
      · intro h; cases h
    | avg =>
      refine ⟨(v :: vs).foldl (· + ·) 0 / ((v :: vs).length : ℚ), by
          simp [aggregate, hv], ?_, fun _ => ?_, ?_, ?_⟩
      · intro h; cases h
      · rw [foldl_add_eq_sum, zero_add]
      · intro h; cases h
      · intro h; cases h
    | min =>
      refine ⟨vs.foldl min v, by simp [aggregate, hv], ?_, ?_, fun _ => ?_, ?_⟩
      · intro h; cases h
      · intro h; cases h
      · exact ⟨foldl_min_mem vs v, fun x hx => foldl_min_le vs v x hx⟩
      · intro h; cases h
    | max =>
      refine ⟨vs.foldl max v, by simp [aggregate, hv], ?_, ?_, ?_, fun _ => ?_⟩
      · intro h; cases h
      · intro h; cases h
      · intro h; cases h
      · exact ⟨foldl_max_mem vs v, fun x hx => le_foldl_max vs v x hx⟩

/-- Witness for `aggregate_spec`: the repository scenario — the sum of the
ages 25 and 30 is 55. -/
theorem aggregate_spec_witness :
    (aggregate dbUsers "users" "age" AggOp.sum 100).2 = Except.ok 55 := by
  obtain ⟨r, hr, hsum, -, -, -⟩ :=
    (aggregate_spec dbUsers "users" "age" AggOp.sum 100).2 (by decide)
  have hlist : numericValues (cleanExpiredItems dbUsers "users" 100).2 "age"
      = [25, 30] := by decide
  rw [hr, hsum rfl, hlist]
  norm_num [List.sum_cons, List.sum_nil]

/-! ## C7: backup then restore round-trips the store -/

/-- C7: with the backing file consistent with the in-memory store (which
holds after every persisting operation), backup followed immediately by
restore succeeds and reproduces the store content live at backup time,
both in memory and in the backing file. -/
theorem backup_restore_roundtrip (db : DB) (h : db.file = db.data) :
    (restore db (some (backup db))).1.data = db.data ∧
    (restore db (some (backup db))).1.file = db.data ∧
    (restore db (some (backup db))).2 = Except.ok () := by
  refine ⟨by simp [restore, backup, save, h], by simp [restore, backup, save, h], rfl⟩

/-- Witness for `backup_restore_roundtrip` at a concrete consistent
store. -/
theorem backup_restore_roundtrip_witness :
    (restore dbUsers (some (backup dbUsers))).1.data = dbUsers.data ∧
    (restore dbUsers (some (backup dbUsers))).1.file = dbUsers.data ∧
    (restore dbUsers (some (backup dbUsers))).2 = Except.ok () :=
  backup_restore_roundtrip dbUsers rfl

/-! ## C8: paginate -/

theorem jsSlice_nonneg (l : List Doc) (s lim : Int) (hs : 0 ≤ s)
    (hl : 0 ≤ lim) :
    jsSlice l s (s + lim) = (l.drop s.toNat).take lim.toNat := by
  simp only [jsSlice]
  rw [if_neg (by omega : ¬ s < 0), if_neg (by omega : ¬ s + lim < 0)]
  rcases le_or_lt (l.length : Int) s with hsl | hsl
  · rw [min_eq_right hsl]
    have h1 : ((l.length : Int)).toNat = l.length := by omega
    have h2 : l.length ≤ s.toNat := by omega
    rw [h1, List.drop_length, List.drop_eq_nil_of_le h2]
    simp
  · rw [min_eq_left (le_of_lt hsl)]
    rw [List.take_eq_take]
    rw [List.length_drop]
    omega

/-- C8 (amended): for page ≥ 1 and limit ≥ 0, paginate treats the page as
1-indexed and returns the slice of the swept sequence from index
(page−1)·limit (inclusive) to (page−1)·limit+limit (exclusive), and an
out-of-range page yields an empty sequence without error.  (For page ≤ 0
or negative limit, JS negative-index slice semantics apply instead and can
return a nonempty sequence.) -/
theorem paginate_spec (db : DB) (c : String) (page limit : Int) (now : ℚ)
    (hp : 1 ≤ page) (hl : 0 ≤ limit) :
    (paginate db c page limit now).2
      = ((cleanExpiredItems db c now).2.drop ((page - 1) * limit).toNat).take
          limit.toNat ∧
    (((cleanExpiredItems db c now).2.length : Int) ≤ (page - 1) * limit →
      (paginate db c page limit now).2 = []) := by
  have h1 : (paginate db c page limit now).2
      = jsSlice (cleanExpiredItems db c now).2 ((page - 1) * limit)
          ((page - 1) * limit + limit) := rfl
  have hs : 0 ≤ (page - 1) * limit := mul_nonneg (by omega) hl
  constructor
  · rw [h1, jsSlice_nonneg _ _ _ hs hl]
  · intro hlen
    rw [h1, jsSlice_nonneg _ _ _ hs hl]
    have hge : (cleanExpiredItems db c now).2.length ≤ ((page - 1) * limit).toNat := by
      omega
    rw [List.drop_eq_nil_of_le hge, List.take_nil]

/-- Witness for `paginate_spec`: page 1, limit 1 on the demo store. -/
theorem paginate_spec_witness :
    (paginate dbUsers "users" 1 1 100).2
      = ((cleanExpiredItems dbUsers "users" 100).2.drop
          (((1 : Int) - 1) * 1).toNat).take (1 : Int).toNat ∧
    (((cleanExpiredItems dbUsers "users" 100).2.length : Int)
        ≤ ((1 : Int) - 1) * 1 →
      (paginate dbUsers "users" 1 1 100).2 = []) :=
  paginate_spec dbUsers "users" 1 1 100 (by norm_num) (by norm_num)

/-- C8 counterexample: page −1 lies outside the 1-indexed range, so the
claim demands an empty result; JS negative-index slice semantics instead
return `[alice]` on the two-document collection. -/
theorem paginate_negative_counterexample :
    (paginate dbUsers "users" (-1) 1 100).2 = [alice] ∧
    (paginate dbUsers "users" (-1) 1 100).2 ≠ [] := by
  exact ⟨by decide, by decide⟩

/-! ## C4: sort -/

theorem mem_insertSorted {le : Doc → Doc → Bool} {x d : Doc} (l : List Doc) :
    d ∈ insertSorted le x l ↔ d = x ∨ d ∈ l := by
  rw [(insertSorted_perm le x l).mem_iff, List.mem_cons]

theorem pairwise_insertSorted {le : Doc → Doc → Bool} {R : Doc → Doc → Prop}
    {P : Doc → Prop}
    (h1 : ∀ a b, P a → P b → le a b = true → R a b)
    (h2 : ∀ a b, P a → P b → le a b = false → R b a)
    (htrans : ∀ a b z, P a → P b → P z → R a b → R b z → R a z)
    (x : Doc) (hx : P x) :
    ∀ l : List Doc, (∀ y ∈ l, P y) → l.Pairwise R →
      (insertSorted le x l).Pairwise R := by
  intro l
  induction l with
  | nil =>
    intro _ _
    simp [insertSorted]
  | cons y ys ih =>
    intro hP hpair
    have hPy : P y := hP y (List.mem_cons_self _ _)
    have hPys : ∀ z ∈ ys, P z := fun z hz => hP z (List.mem_cons_of_mem _ hz)
    cases hxy : le x y with
    | true =>
      have hins : insertSorted le x (y :: ys) = x :: y :: ys := by
        simp [insertSorted, hxy]
      rw [hins]
      refine List.pairwise_cons.mpr ⟨?_, hpair⟩
      intro z hz
      rcases List.mem_cons.mp hz with rfl | hzys
      · exact h1 x z hx hPy hxy
      · exact htrans x y z hx hPy (hPys z hzys) (h1 x y hx hPy hxy)
          (List.rel_of_pairwise_cons hpair hzys)
    | false =>
      have hins : insertSorted le x (y :: ys) = y :: insertSorted le x ys := by
        simp [insertSorted, hxy]
      rw [hins]
      have hpys : ys.Pairwise R := (List.pairwise_cons.mp hpair).2
      refine List.pairwise_cons.mpr ⟨?_, ih hPys hpys⟩
      intro z hz
      rcases (mem_insertSorted ys).mp hz with rfl | hzys
      · exact h2 z y hx hPy hxy
      · exact List.rel_of_pairwise_cons hpair hzys

theorem pairwise_sortList {le : Doc → Doc → Bool} {R : Doc → Doc → Prop}
    {P : Doc → Prop}
    (h1 : ∀ a b, P a → P b → le a b = true → R a b)
    (h2 : ∀ a b, P a → P b → le a b = false → R b a)
    (htrans : ∀ a b z, P a → P b → P z → R a b → R b z → R a z) :
    ∀ l : List Doc, (∀ y ∈ l, P y) → (sortList le l).Pairwise R := by
  intro l
  induction l with
  | nil => intro _; exact List.Pairwise.nil
  | cons x xs ih =>
    intro hP
    have hx : P x := hP x (List.mem_cons_self _ _)
    have hxs : ∀ y ∈ xs, P y := fun y hy => hP y (List.mem_cons_of_mem _ hy)
    have hsorted : ∀ y ∈ sortList le xs, P y := fun y hy =>
      hxs y ((sortList_perm le xs).mem_iff.mp hy)
    exact pairwise_insertSorted h1 h2 htrans x hx (sortList le xs) hsorted (ih hxs)

/-- C4 (amended): sort returns the swept sequence reordered by the
comparator (nondecreasing key values for "asc", nonincreasing for "desc",
whenever the compared key values are numeric) — but `Array.prototype.sort`
reorders the live stored array in place, so the stored collection after
the call IS the returned sorted sequence and a subsequent getAll returns
the sorted order, not the prior insertion order. -/
theorem sort_spec (db : DB) (c key : String) (ord : SortOrder) (now : ℚ) :
    colOf (sortOp db c key ord now).1.data c = (sortOp db c key ord now).2 ∧
    (getAll (sortOp db c key ord now).1 c now).2 = (sortOp db c key ord now).2 ∧
    ((sortOp db c key ord now).2).Perm (cleanExpiredItems db c now).2 ∧
    ((∀ d ∈ (cleanExpiredItems db c now).2,
        ∃ q : ℚ, lookupField d key = some (Value.num q)) →
      ((sortOp db c key ord now).2).Pairwise (fun a b =>
        ∀ qa qb : ℚ, lookupField a key = some (Value.num qa) →
          lookupField b key = some (Value.num qb) →
          match ord with
          | SortOrder.asc => qa ≤ qb
          | SortOrder.desc => qb ≤ qa)) := by
  have hS : (sortOp db c key ord now).2
      = sortList (sortLe key ord) (cleanExpiredItems db c now).2 := rfl
  have hcol : colOf (sortOp db c key ord now).1.data c
      = (sortOp db c key ord now).2 := by
    simp [sortOp, colOf, getCol_setCol_self]
  have hperm : ((sortOp db c key ord now).2).Perm (cleanExpiredItems db c now).2 := by
    rw [hS]
    exact sortList_perm _ _
  have hkeep : ∀ d ∈ (sortOp db c key ord now).2, keepAt now d = true := by
    intro d hd
    have hm := hperm.mem_iff.mp hd
    rw [clean_snd] at hm
    exact List.of_mem_filter hm
  have hget : (getAll (sortOp db c key ord now).1 c now).2
      = (sortOp db c key ord now).2 := by
    simp only [getAll]
    rw [clean_snd, hcol]
    exact List.filter_eq_self.mpr hkeep
  refine ⟨hcol, hget, hperm, fun hnum => ?_⟩
  rw [hS]
  refine pairwise_sortList
    (P := fun d => ∃ q : ℚ, lookupField d key = some (Value.num q))
    ?_ ?_ ?_ _ hnum
  · intro a b _ _ hle qa qb ha hb
    cases ord with
    | asc =>
      have hgt : jsGt (lookupField a key) (lookupField b key) = false := by
        simpa [sortLe] using hle
      rw [ha, hb] at hgt
      simp [jsGt, toNum] at hgt
      exact hgt
    | desc =>
      have hgt : jsGt (lookupField a key) (lookupField b key) = true := by
        simpa [sortLe] using hle
      rw [ha, hb] at hgt
      simp [jsGt, toNum] at hgt
      exact le_of_lt hgt
  · intro a b _ _ hle q1 q2 hb' ha'
    cases ord with
    | asc =>
      have hgt : jsGt (lookupField a key) (lookupField b key) = true := by
        simpa [sortLe] using hle
      rw [ha', hb'] at hgt
      simp [jsGt, toNum] at hgt
      exact le_of_lt hgt
    | desc =>
      have hgt : jsGt (lookupField a key) (lookupField b key) = false := by
        simpa [sortLe] using hle
      rw [ha', hb'] at hgt
      simp [jsGt, toNum] at hgt
      exact hgt
  · intro x y z _ hPy _ hxy hyz q1 q3 hx hz
    obtain ⟨qy, hy⟩ := hPy
    have r1 := hxy q1 qy hx hy
    have r2 := hyz qy q3 hy hz
    cases ord with
    | asc => exact le_trans r1 r2
    | desc => exact le_trans r2 r1

/-- Witness for `sort_spec`: ascending sort by age on the demo store is
pairwise nondecreasing in the age values. -/
theorem sort_spec_witness :
    ((sortOp dbUsers "users" "age" SortOrder.asc 100).2).Pairwise (fun a b =>
      ∀ qa qb : ℚ, lookupField a "age" = some (Value.num qa) →
        lookupField b "age" = some (Value.num qb) → qa ≤ qb) := by
  refine (sort_spec dbUsers "users" "age" SortOrder.asc 100).2.2.2 ?_
  intro d hd
  have hl : (cleanExpiredItems dbUsers "users" 100).2 = [alice, bob] := by decide
  rw [hl] at hd
  rcases List.mem_cons.mp hd with rfl | hd
  · exact ⟨25, by decide⟩
  · rcases List.mem_cons.mp hd with rfl | hd
    · exact ⟨30, by decide⟩
    · exact absurd hd (List.not_mem_nil d)

/-- C4 counterexample: `sort(users, age, desc)` sorts the live array in
place: the stored collection afterwards is `[bob, alice]` and a subsequent
getAll returns `[bob, alice]`, not the insertion order `[alice, bob]`. -/
theorem sort_inplace_counterexample :
    (sortOp dbUsers "users" "age" SortOrder.desc 100).2 = [bob, alice] ∧
    colOf (sortOp dbUsers "users" "age" SortOrder.desc 100).1.data "users"
      = [bob, alice] ∧
    (getAll (sortOp dbUsers "users" "age" SortOrder.desc 100).1 "users" 100).2
      = [bob, alice] ∧
    colOf dbUsers.data "users" = [alice, bob] ∧
    [bob, alice] ≠ [alice, bob] :=
  ⟨by decide, by decide, by decide, by decide, by decide⟩

end BunDb
